import Mathlib

/-!
Verification of the request/cache layer of the Retently feedback CLI client
(`scripts/retently-client.ts`).

The client imports its cache engine (`PluginCache`, `createCacheKey`, `TTL`)
from the package `@local/plugin-cache`, whose source is not part of this
repository; those definitions are modelled from the specification and are
marked as such in their doc comments.  Everything else (bypass conditions,
bulk-create dedup/chunking, HTTP response handling) is translated directly
from `scripts/retently-client.ts`.

Conventions of the embedding:
* time is a `Nat` (milliseconds);
* JavaScript string truthiness (`!!s`, `s ? a : b`) is `jsTruthyStr`;
* the network is an oracle passed as an argument (per-chunk outcome for the
  bulk create, a `FetchOutcome` for a single HTTP exchange);
* header lookup is modelled as exact-name association-list lookup.
-/

namespace Retently

/-- Truthiness of a JavaScript `string | undefined` value: `undefined` and the
empty string are falsy, every other string is truthy. -/
def jsTruthyStr : Option String → Bool
  | none => false
  | some s => !(s == "")

/-! ## Cache engine, modelled from the spec (source not in this repository) -/

/-- Modelled from the spec: a cache entry is a value together with its expiry
timestamp (`{ value, expiresAt }`). -/
structure CacheEntry (α : Type) where
  value : α
  expiresAt : Nat
deriving DecidableEq

/-- Modelled from the spec: the in-memory cache store, an association list from
key strings to entries plus hit/miss counters and the global enable switch. -/
structure CacheState (α : Type) where
  entries : List (String × CacheEntry α)
  hits : Nat
  misses : Nat
  enabled : Bool
deriving DecidableEq

/-- Result of one `getOrFetch` call: the returned value, whether the fetch
function was invoked, and the cache state afterwards. -/
structure FetchOut (α : Type) where
  value : α
  invoked : Bool
  state : CacheState α
deriving DecidableEq

/-- Modelled from the spec: `getOrFetch(key, fetchFn, { ttl, bypassCache })`
from the missing `@local/plugin-cache` package.  If `bypassCache` is true or
the cache is globally disabled, the fetch function is called directly and its
result is returned without storing it.  Otherwise, on a fresh entry
(`now < expiresAt`) a hit is recorded and the stored value returned; otherwise
a miss is recorded, the fetch function is invoked and its result stored with
`expiresAt = now + ttl`.  The successful fetch result is the argument
`fetched`. -/
def getOrFetch (key : String) (fetched : α) (ttl : Nat) (bypassCache : Bool)
    (now : Nat) (st : CacheState α) : FetchOut α :=
  if bypassCache || !st.enabled then
    ⟨fetched, true, st⟩
  else
    match List.lookup key st.entries with
    | some entry =>
      if now < entry.expiresAt then
        ⟨entry.value, false, { st with hits := st.hits + 1 }⟩
      else
        ⟨fetched, true,
          { st with misses := st.misses + 1,
                    entries := (key, ⟨fetched, now + ttl⟩) ::
                      st.entries.filter (fun kv => !(kv.1 == key)) }⟩
    | none =>
      ⟨fetched, true,
        { st with misses := st.misses + 1,
                  entries := (key, ⟨fetched, now + ttl⟩) ::
                    st.entries.filter (fun kv => !(kv.1 == key)) }⟩

/-- Modelled from the spec: `invalidatePattern(regex)` removes every entry
whose key matches and returns the count removed.  The regular expression is
modelled as a Boolean predicate on keys. -/
def invalidatePattern (p : String → Bool) (st : CacheState α) :
    Nat × CacheState α :=
  (st.entries.countP (fun kv => p kv.1),
   { st with entries := st.entries.filter (fun kv => !(p kv.1)) })

/-- Matcher of the regular expression literal used by the write operations of
the client: a key matches exactly when it starts with the string
`customer`. -/
def matchesCustomerKey (k : String) : Bool :=
  "customer".data.isPrefixOf k.data

namespace TTL

/-- Modelled from the spec: one minute in milliseconds. -/
def MINUTE : Nat := 60000

/-- Modelled from the spec: five minutes in milliseconds. -/
def FIVE_MINUTES : Nat := 300000

/-- Modelled from the spec: fifteen minutes in milliseconds. -/
def FIFTEEN_MINUTES : Nat := 900000

/-- Modelled from the spec: one hour in milliseconds. -/
def HOUR : Nat := 3600000

end TTL

/-! ## Cache key derivation, modelled from the spec

`createCacheKey` lives in the missing `@local/plugin-cache` package.  The spec
states that the key is a string deterministically derived from the operation
name and the parameter mapping, with `undefined` parameters omitted, such that
two logically identical requests produce the same key regardless of property
insertion order and two requests differing in any included parameter produce
different keys.  The model below realises exactly that: the defined pairs are
sorted into a canonical order and serialised by an injective encoding. -/

/-- Parameter pairs whose value is defined; `undefined` parameters are
omitted. -/
def definedPairs (params : List (String × Option String)) :
    List (String × String) :=
  params.filterMap (fun kv => kv.2.map (fun v => (kv.1, v)))

/-- Total order on name/value pairs: lexicographic by name, then by value. -/
def pairLE (a b : String × String) : Prop :=
  a.1 < b.1 ∨ (a.1 = b.1 ∧ a.2 ≤ b.2)

instance : DecidableRel pairLE := fun a b =>
  inferInstanceAs (Decidable (a.1 < b.1 ∨ (a.1 = b.1 ∧ a.2 ≤ b.2)))

instance : IsTotal (String × String) pairLE where
  total a b := by
    rcases lt_trichotomy a.1 b.1 with h | h | h
    · exact Or.inl (Or.inl h)
    · rcases le_total a.2 b.2 with h2 | h2
      · exact Or.inl (Or.inr ⟨h, h2⟩)
      · exact Or.inr (Or.inr ⟨h.symm, h2⟩)
    · exact Or.inr (Or.inl h)

instance : IsTrans (String × String) pairLE where
  trans a b c hab hbc := by
    rcases hab with h1 | ⟨e1, l1⟩
    · rcases hbc with h2 | ⟨e2, _⟩
      · exact Or.inl (lt_trans h1 h2)
      · exact Or.inl (e2 ▸ h1)
    · rcases hbc with h2 | ⟨e2, l2⟩
      · exact Or.inl (e1 ▸ h2)
      · exact Or.inr ⟨e1.trans e2, le_trans l1 l2⟩

instance : IsAntisymm (String × String) pairLE where
  antisymm a b hab hba := by
    rcases hab with h1 | ⟨e1, l1⟩
    · rcases hba with h2 | ⟨e2, _⟩
      · exact absurd h2 (lt_asymm h1)
      · exact absurd (e2 ▸ h1) (lt_irrefl _)
    · rcases hba with h2 | ⟨e2, l2⟩
      · exact absurd (e1 ▸ h2) (lt_irrefl _)
      · exact Prod.ext e1 (le_antisymm l1 l2)

/-- Canonical ordering of the defined pairs, making the key independent of
property insertion order. -/
def sortPairs (l : List (String × String)) : List (String × String) :=
  List.insertionSort pairLE l

/-- Injective serialisation of one field: the length of the field in unary,
a separator, then the field itself, followed by the continuation. -/
def encS (s : List Char) (rest : List Char) : List Char :=
  List.replicate s.length '#' ++ ':' :: (s ++ rest)

/-- Injective serialisation of a list of name/value pairs. -/
def encPairs : List (String × String) → List Char
  | [] => []
  | kv :: rest => encS kv.1.data (encS kv.2.data (encPairs rest))

/-- Modelled from the spec: `createCacheKey(operation, params)` from the
missing `@local/plugin-cache` package.  The key starts with the operation
name, and the defined parameters follow in canonical order through an
injective encoding. -/
def createCacheKey (op : String) (params : List (String × Option String)) :
    String :=
  op ++ ":" ++ String.mk (encPairs (sortPairs (definedPairs params)))

/-! ## `listFeedback` (translated from `scripts/retently-client.ts`) -/

/-- Options of `listFeedback`, mirroring the TypeScript options object.  Cache
key values are already in their stringified form. -/
structure FeedbackOpts where
  page : Option Nat
  perPage : Option Nat
  campaignId : Option String
  since : Option String
  untilOpt : Option String
  sortOpt : Option String
deriving DecidableEq

/-- Cache key computed by `listFeedback`:
`createCacheKey("feedback", { page, perPage, campaignId, since, until, sort })`. -/
def listFeedbackKey (o : FeedbackOpts) : String :=
  createCacheKey "feedback"
    [("page", o.page.map Nat.repr),
     ("perPage", o.perPage.map Nat.repr),
     ("campaignId", o.campaignId),
     ("since", o.since),
     ("until", o.untilOpt),
     ("sort", o.sortOpt)]

/-- Translation of `listFeedback`: the cache is bypassed when caching is
disabled or `options.since` is truthy (`this.cacheDisabled || !!options.since`),
and the fetch goes through `getOrFetch` with a two-minute TTL.  The value the
network would produce is the argument `fetched`. -/
def listFeedback (o : FeedbackOpts) (cacheDisabled : Bool) (fetched : α)
    (now : Nat) (st : CacheState α) : FetchOut α :=
  let bypassCache := cacheDisabled || jsTruthyStr o.since
  getOrFetch (listFeedbackKey o) fetched (TTL.MINUTE * 2) bypassCache now st

/-! ## `createCustomers` and `deleteCustomer` (translated from the source) -/

/-- Input row of the bulk create: the optional `email` field, with the other
customer fields abstracted into `payload`. -/
structure CustomerIn where
  email : Option String
  payload : String
deriving DecidableEq

/-- Lower-cased email of an entry (`c.email.toLowerCase()`); only ever used on
entries whose email is truthy. -/
def lowerEmail (c : CustomerIn) : String :=
  (c.email.getD "").toLower

/-- Translation of the dedup filter of `createCustomers`: entries with a falsy
email are dropped, and of the remaining entries only the first occurrence of
each lower-cased email is kept (`seen` is the set accumulated so far). -/
def dedupeByEmail : List CustomerIn → List String → List CustomerIn
  | [], _ => []
  | c :: rest, seen =>
    if jsTruthyStr c.email then
      if seen.contains (lowerEmail c) then dedupeByEmail rest seen
      else c :: dedupeByEmail rest (lowerEmail c :: seen)
    else dedupeByEmail rest seen

/-- Fuel-driven worker of `chunkList`; the fuel is an upper bound on the list
length, so the zero-fuel non-nil case is never reached in `chunkList`. -/
def chunkListF (n : Nat) : Nat → List α → List (List α)
  | _, [] => []
  | 0, _ :: _ => []
  | fuel + 1, x :: xs => ((x :: xs).take n) :: chunkListF n fuel ((x :: xs).drop n)

/-- Chunking loop of `createCustomers`: `for (let i = 0; i < n; i += 1000)`
with `deduped.slice(i, i + 1000)`. -/
def chunkList (n : Nat) (l : List α) : List (List α) :=
  chunkListF n l.length l

/-- Fuel-driven worker of `lensOfChunks`. -/
def lensOfChunksF : Nat → Nat → List Nat
  | _, 0 => []
  | 0, _ + 1 => []
  | fuel + 1, m + 1 => min 1000 (m + 1) :: lensOfChunksF fuel (m + 1 - 1000)

/-- Lengths of the chunks a list of the given length is split into by the
1000-per-call batching of `createCustomers`. -/
def lensOfChunks (n : Nat) : List Nat :=
  lensOfChunksF n n

/-- Per-entry outcome row of the bulk result (`{ email, success, error? }`). -/
structure RowResult where
  email : String
  success : Bool
  error : Option String
deriving DecidableEq

/-- Row recorded for one entry of a chunk, given the outcome of that chunk:
on success `{ email, success: true }`, on failure `{ email, success: false,
error }`. -/
def rowFor (err : Option String) (c : CustomerIn) : RowResult :=
  match err with
  | none => ⟨c.email.getD "", true, none⟩
  | some e => ⟨c.email.getD "", false, some e⟩

/-- Chunk-processing loop of `createCustomers`: chunk `i` is submitted as one
network call whose outcome is `net i` (`none` = success, `some msg` = the
thrown error message); every entry of a successful chunk is appended as a
success row, every entry of a failed chunk as a failure row carrying the
message.  Returns the result rows together with the success and error
counters. -/
def bulkGo (net : Nat → Option String) : Nat → List (List CustomerIn) →
    List RowResult × Nat × Nat
  | _, [] => ([], 0, 0)
  | i, chunk :: rest =>
    let r := bulkGo net (i + 1) rest
    match net i with
    | none => (chunk.map (rowFor none) ++ r.1, chunk.length + r.2.1, r.2.2)
    | some e => (chunk.map (rowFor (some e)) ++ r.1, r.2.1, chunk.length + r.2.2)

/-- Bulk result envelope returned by `createCustomers`. -/
structure BulkResult where
  success_count : Nat
  error_count : Nat
  results : List RowResult
deriving DecidableEq

/-- Full observable outcome of one `createCustomers` call: the returned bulk
result, the list of submitted network calls (one per chunk, in order), and the
cache state after the final `invalidatePattern(/^customer/)`. -/
structure BulkOut (α : Type) where
  res : BulkResult
  calls : List (List CustomerIn)
  state : CacheState α
deriving DecidableEq

/-- Translation of `createCustomers`: dedupe by lower-cased email, chunk into
batches of 1000, submit each chunk (outcome given by the oracle `net`), then
invalidate every cache key matching `/^customer/` and return the per-entry
results with the counters. -/
def createCustomers (customers : List CustomerIn) (net : Nat → Option String)
    (st : CacheState α) : BulkOut α :=
  let deduped := dedupeByEmail customers []
  let chunks := chunkList 1000 deduped
  let r := bulkGo net 0 chunks
  { res := ⟨r.2.1, r.2.2, r.1⟩,
    calls := chunks,
    state := (invalidatePattern matchesCustomerKey st).2 }

/-- Translation of `deleteCustomer`: the DELETE request is issued first
(outcome `net`: `none` = success, `some msg` = the thrown error); on success
every cache key matching `/^customer/` is invalidated and the confirmation is
returned, on failure the error propagates and the cache is untouched. -/
def deleteCustomer (_email : String) (net : Option String) (st : CacheState α) :
    Except String Bool × CacheState α :=
  match net with
  | some err => (Except.error err, st)
  | none => (Except.ok true, (invalidatePattern matchesCustomerKey st).2)

/-! ## HTTP request handler (translated from the source) -/

/-- HTTP response as seen by `request`: status code, headers and body text.
Header lookup is modelled as exact-name lookup in an association list. -/
structure HttpResponse where
  status : Nat
  headers : List (String × String)
  body : String
deriving DecidableEq

/-- Value of a response header, `none` when the header is absent. -/
def headerGet (resp : HttpResponse) (name : String) : Option String :=
  List.lookup name resp.headers

/-- Value of one field of the rate-limit snapshot: JavaScript `null`, the
number `NaN` produced by `parseInt` on a non-numeric string, or an integer. -/
inductive RLField where
  | null
  | nan
  | num (n : Int)
deriving DecidableEq

/-- Rate-limit snapshot `{ remaining, limit, reset }` kept by the client. -/
structure RateLimitInfo where
  remaining : RLField
  limit : RLField
  reset : RLField
deriving DecidableEq

/-- Initial value of `lastRateLimitInfo`: all three fields are `null` before
the first request completes. -/
def initialRateLimitInfo : RateLimitInfo := ⟨.null, .null, .null⟩

/-- Numeric value of a list of decimal digits. -/
def digitsVal (ds : List Char) : Nat :=
  ds.foldl (fun acc c => acc * 10 + (c.toNat - 48)) 0

/-- Model of JavaScript `parseInt(s, 10)`: an optional sign followed by the
longest prefix of decimal digits; `NaN` when that prefix is empty. -/
def jsParseInt (s : String) : RLField :=
  let t : Bool × List Char :=
    match s.data with
    | '-' :: r => (true, r)
    | '+' :: r => (false, r)
    | r => (false, r)
  let ds := t.2.takeWhile Char.isDigit
  if ds.isEmpty then .nan
  else .num (if t.1 then -(digitsVal ds : Int) else (digitsVal ds : Int))

/-- Translation of one header slot of the rate-limit parse:
`headers.get(h) ? parseInt(headers.get(h)!, 10) : null` — the field is `null`
when the header is absent or its value is the (falsy) empty string. -/
def parseRLField (h : Option String) : RLField :=
  match h with
  | none => .null
  | some s => if s == "" then .null else jsParseInt s

/-- Translation of the rate-limit header parse performed after every
response. -/
def parseRateLimitHeaders (resp : HttpResponse) : RateLimitInfo :=
  { remaining := parseRLField (headerGet resp "X-RateLimit-Remaining"),
    limit := parseRLField (headerGet resp "X-RateLimit-Limit"),
    reset := parseRLField (headerGet resp "X-RateLimit-Reset") }

/-- String interpolation of a rate-limit field inside a template literal:
`null` prints as `"null"`, `NaN` as `"NaN"`, a number in decimal. -/
def rlFieldToString : RLField → String
  | .null => "null"
  | .nan => "NaN"
  | .num n => toString n

/-- Outcome of the `fetch` call inside `request`: either a completed HTTP
response, or the abort triggered by the timeout firing first. -/
inductive FetchOutcome where
  | ok (resp : HttpResponse)
  | aborted
deriving DecidableEq

/-- Observable outcome of one `request` call: the rate-limit snapshot
afterwards and either the response body or the thrown error message. -/
structure RequestOut where
  rli : RateLimitInfo
  result : Except String String

/-- Effective retry-after value of a 429 response:
`response.headers.get('Retry-After') || '60'` — the header value when it is
truthy, the string `"60"` when the header is absent or empty. -/
def effRetryAfter (resp : HttpResponse) : String :=
  match headerGet resp "Retry-After" with
  | some s => if s == "" then "60" else s
  | none => "60"

/-- Translation of the response handling of `request`: the timeout defaults to
30000 ms (`timeout = 30000`); an abort fails with the timeout message and
leaves the rate-limit snapshot unchanged; otherwise the snapshot is overwritten
from the response headers, a 429 raises the rate-limit message (with
`Retry-After` defaulting to `"60"` when the header is falsy), any other
non-2xx status raises the API error carrying status and body, and a 2xx
returns the body. -/
def requestModel (endpoint : String) (timeoutOpt : Option Nat)
    (prev : RateLimitInfo) (outcome : FetchOutcome) : RequestOut :=
  let t := timeoutOpt.getD 30000
  match outcome with
  | .aborted =>
    ⟨prev, Except.error ("Request timeout after " ++ Nat.repr t ++ "ms: " ++ endpoint)⟩
  | .ok resp =>
    let rli := parseRateLimitHeaders resp
    if resp.status == 429 then
      ⟨rli, Except.error ("Rate limit exceeded. Retry after " ++ effRetryAfter resp ++
        " seconds. Remaining: " ++ rlFieldToString rli.remaining ++ "/" ++
        rlFieldToString rli.limit)⟩
    else if !(decide (200 ≤ resp.status) && decide (resp.status < 300)) then
      ⟨rli, Except.error ("Retently API error (" ++ Nat.repr resp.status ++ "): " ++
        resp.body)⟩
    else
      ⟨rli, Except.ok resp.body⟩

/-! ## Concrete inputs used by the witnesses and counterexamples -/

/-- Options with `since` present but equal to the empty string. -/
def sinceEmptyOpts : FeedbackOpts := ⟨none, none, none, some "", none, none⟩

/-- Cache state holding a fresh entry under the exact key `listFeedback`
computes for `sinceEmptyOpts`. -/
def sinceEmptyState : CacheState Nat :=
  ⟨[(listFeedbackKey sinceEmptyOpts, ⟨42, 10⟩)], 0, 0, true⟩

/-- Options with a truthy `since` value. -/
def sincePollOpts : FeedbackOpts :=
  ⟨none, none, none, some "2024-01-01", none, none⟩

/-- Concrete 429 response with `Retry-After: 30`. -/
def resp429 : HttpResponse :=
  ⟨429, [("Retry-After", "30"), ("X-RateLimit-Remaining", "10"),
         ("X-RateLimit-Limit", "100")], ""⟩

/-- Response carrying a present but empty `X-RateLimit-Remaining` header. -/
def respEmptyRL : HttpResponse :=
  ⟨200, [("X-RateLimit-Remaining", "")], "ok"⟩

/-- Concrete cache state with two `customer`-prefixed keys and one other
key. -/
def stCustomerMix : CacheState Nat :=
  ⟨[("customers:a", ⟨1, 5⟩), ("customer:b", ⟨2, 5⟩), ("nps_score", ⟨3, 5⟩)],
   0, 0, true⟩

/-- Concrete input for C10: one valid customer, every network call failing,
and a cache with one `customer`-prefixed entry. -/
def stOneCustomer : CacheState Nat :=
  ⟨[("customers:a", ⟨1, 5⟩), ("feedback:x", ⟨2, 5⟩)], 0, 0, true⟩

/-! ## Claim C1: TTL window of `getOrFetch` -/

/-- Claim C1: with the cache enabled and no bypass, `getOrFetch(k, f, {ttl: T})`
called twice sequentially within `T` time units invokes the fetch function
exactly once — the first call fetches, the second is a hit returning the stored
value — and a further call after `T` time units have elapsed since the store
invokes the fetch function again, storing the new result with
`expiresAt = now + T`. -/
theorem c1_getOrFetch_ttl_window (α : Type) (st : CacheState α) (k : String)
    (a b c : α) (T t0 t1 t2 : Nat)
    (hen : st.enabled = true)
    (hstale : ∀ e, List.lookup k st.entries = some e → e.expiresAt ≤ t0)
    (h1 : t1 < t0 + T) (h2 : t0 + T ≤ t2) :
    (getOrFetch k a T false t0 st).invoked = true ∧
    (getOrFetch k b T false t1 (getOrFetch k a T false t0 st).state).invoked
      = false ∧
    (getOrFetch k b T false t1 (getOrFetch k a T false t0 st).state).value
      = a ∧
    (getOrFetch k c T false t2
        (getOrFetch k b T false t1
          (getOrFetch k a T false t0 st).state).state).invoked = true ∧
    List.lookup k
        (getOrFetch k c T false t2
          (getOrFetch k b T false t1
            (getOrFetch k a T false t0 st).state).state).state.entries
      = some ⟨c, t2 + T⟩ := by
  have hfirst : getOrFetch k a T false t0 st =
      ⟨a, true,
        { st with misses := st.misses + 1,
                  entries := (k, ⟨a, t0 + T⟩) ::
                    st.entries.filter (fun kv => !(kv.1 == k)) }⟩ := by
    unfold getOrFetch
    cases hl : List.lookup k st.entries with
    | none => simp [hen, hl]
    | some e =>
      have hne : ¬ t0 < e.expiresAt := by
        have := hstale e hl
        omega
      simp [hen, hl, hne]
  rw [hfirst]
  have hsecond :
      getOrFetch k b T false t1
        ({ st with misses := st.misses + 1,
                   entries := (k, ⟨a, t0 + T⟩) ::
                     st.entries.filter (fun kv => !(kv.1 == k)) }
          : CacheState α) =
      ⟨a, false,
        { st with misses := st.misses + 1, hits := st.hits + 1,
                  entries := (k, ⟨a, t0 + T⟩) ::
                    st.entries.filter (fun kv => !(kv.1 == k)) }⟩ := by
    unfold getOrFetch
    simp [hen, List.lookup, h1]
  rw [hsecond]
  have hthird :
      getOrFetch k c T false t2
        ({ st with misses := st.misses + 1, hits := st.hits + 1,
                   entries := (k, ⟨a, t0 + T⟩) ::
                     st.entries.filter (fun kv => !(kv.1 == k)) }
          : CacheState α) =
      ⟨c, true,
        { st with misses := st.misses + 2, hits := st.hits + 1,
                  entries := (k, ⟨c, t2 + T⟩) ::
                    ((k, (⟨a, t0 + T⟩ : CacheEntry α)) ::
                      st.entries.filter (fun kv => !(kv.1 == k))).filter
                        (fun kv => !(kv.1 == k)) }⟩ := by
    have hne : ¬ t2 < t0 + T := by omega
    unfold getOrFetch
    simp [hen, List.lookup, hne]
  rw [hthird]
  refine ⟨rfl, rfl, rfl, rfl, ?_⟩
  simp [List.lookup]

/-- Witness for C1 at a concrete input: empty enabled cache, TTL 5, calls at
times 0, 3 and 7. -/
theorem c1_witness :
    ((⟨[], 0, 0, true⟩ : CacheState Nat).enabled = true) ∧
    ((getOrFetch "k" 1 5 false 0 (⟨[], 0, 0, true⟩ : CacheState Nat)).invoked
        = true ∧
      (getOrFetch "k" 2 5 false 3
          (getOrFetch "k" 1 5 false 0
            (⟨[], 0, 0, true⟩ : CacheState Nat)).state).invoked = false ∧
      (getOrFetch "k" 2 5 false 3
          (getOrFetch "k" 1 5 false 0
            (⟨[], 0, 0, true⟩ : CacheState Nat)).state).value = 1 ∧
      (getOrFetch "k" 3 5 false 7
          (getOrFetch "k" 2 5 false 3
            (getOrFetch "k" 1 5 false 0
              (⟨[], 0, 0, true⟩ : CacheState Nat)).state).state).invoked
        = true ∧
      List.lookup "k"
          (getOrFetch "k" 3 5 false 7
            (getOrFetch "k" 2 5 false 3
              (getOrFetch "k" 1 5 false 0
                (⟨[], 0, 0, true⟩ : CacheState Nat)).state).state).state.entries
        = some ⟨3, 12⟩) :=
  ⟨rfl,
    c1_getOrFetch_ttl_window Nat ⟨[], 0, 0, true⟩ "k" 1 2 3 5 0 3 7 rfl
      (fun e h => by simp [List.lookup] at h) (by decide) (by decide)⟩

/-! ## Claim C3: cache bypass of `listFeedback` on the `since` parameter -/

/-- Counterexample to C3 as stated: with `since` present but empty, the
truthiness test `!!options.since` is false, so the cache is not bypassed — the
fetch function is not invoked and the previously cached value is returned. -/
theorem c3_counterexample :
    sinceEmptyOpts.since ≠ none ∧
    (listFeedback sinceEmptyOpts false 99 0 sinceEmptyState).invoked = false ∧
    (listFeedback sinceEmptyOpts false 99 0 sinceEmptyState).value = 42 := by
  exact ⟨by decide, by rfl, by rfl⟩

/-- Claim C3 as amended: for every invocation of `listFeedback` in which the
`since` parameter is present and non-empty (truthy), the cache is bypassed —
the fetch function is always invoked, the fetched value is returned rather
than any cached one, and nothing is stored. -/
theorem c3_listFeedback_since_bypasses (α : Type) (o : FeedbackOpts)
    (cd : Bool) (f : α) (now : Nat) (st : CacheState α)
    (hs : jsTruthyStr o.since = true) :
    (listFeedback o cd f now st).invoked = true ∧
    (listFeedback o cd f now st).value = f ∧
    (listFeedback o cd f now st).state = st := by
  unfold listFeedback getOrFetch
  simp [hs]

/-- Witness for the amended C3 at a concrete input: `since` set to a real
date, a fresh cached entry under the same key, yet the fetch is invoked. -/
theorem c3_witness :
    jsTruthyStr sincePollOpts.since = true ∧
    ((listFeedback sincePollOpts false (99 : Nat) 0
        ⟨[(listFeedbackKey sincePollOpts, ⟨42, 10⟩)], 0, 0, true⟩).invoked
        = true ∧
      (listFeedback sincePollOpts false (99 : Nat) 0
        ⟨[(listFeedbackKey sincePollOpts, ⟨42, 10⟩)], 0, 0, true⟩).value = 99 ∧
      (listFeedback sincePollOpts false (99 : Nat) 0
          ⟨[(listFeedbackKey sincePollOpts, ⟨42, 10⟩)], 0, 0, true⟩).state
        = ⟨[(listFeedbackKey sincePollOpts, ⟨42, 10⟩)], 0, 0, true⟩) :=
  ⟨by decide,
    c3_listFeedback_since_bypasses Nat sincePollOpts false 99 0
      ⟨[(listFeedbackKey sincePollOpts, ⟨42, 10⟩)], 0, 0, true⟩ (by decide)⟩

/-! ## Claims C6, C7, C8: HTTP response handling -/

/-- Helper: a middle part of a string concatenation is an infix of its
character data. -/
theorem data_infix_of_parts (u mid v w : String) (h : w = u ++ mid ++ v) :
    List.IsInfix mid.data w.data := by
  subst h
  exact ⟨u.data, v.data, by simp [String.data_append, List.append_assoc]⟩

/-- Claim C6: every response with status 429 makes `request` raise a failure
(no retry happens in this layer) whose message contains the `Retry-After`
header value — the string `"60"` when the header is absent — together with the
remaining and limit counts parsed from this same response. -/
theorem c6_rate_limited_error (endpoint : String) (tOpt : Option Nat)
    (prev : RateLimitInfo) (resp : HttpResponse) (h429 : resp.status = 429) :
    ∃ msg, (requestModel endpoint tOpt prev (.ok resp)).result
        = Except.error msg ∧
      List.IsInfix (match headerGet resp "Retry-After" with
        | none => "60"
        | some s => s).data msg.data ∧
      List.IsInfix (rlFieldToString (parseRateLimitHeaders resp).remaining
        ++ "/" ++ rlFieldToString (parseRateLimitHeaders resp).limit).data
        msg.data := by
  have hmain : (requestModel endpoint tOpt prev (.ok resp)).result
      = Except.error ("Rate limit exceeded. Retry after " ++ effRetryAfter resp
        ++ " seconds. Remaining: "
        ++ rlFieldToString (parseRateLimitHeaders resp).remaining ++ "/"
        ++ rlFieldToString (parseRateLimitHeaders resp).limit) := by
    unfold requestModel
    simp [h429]
  refine ⟨_, hmain, ?_, ?_⟩
  · cases hra : headerGet resp "Retry-After" with
    | none =>
      have he : effRetryAfter resp = "60" := by
        simp [effRetryAfter, hra]
      refine data_infix_of_parts "Rate limit exceeded. Retry after " _
        (" seconds. Remaining: "
          ++ rlFieldToString (parseRateLimitHeaders resp).remaining ++ "/"
          ++ rlFieldToString (parseRateLimitHeaders resp).limit) _ ?_
      rw [he]
      apply String.ext
      simp [String.data_append]
    | some s =>
      by_cases hs : s = ""
      · subst hs
        exact List.nil_infix
      · have he : effRetryAfter resp = s := by
          simp [effRetryAfter, hra, hs]
        refine data_infix_of_parts "Rate limit exceeded. Retry after " _
          (" seconds. Remaining: "
            ++ rlFieldToString (parseRateLimitHeaders resp).remaining ++ "/"
            ++ rlFieldToString (parseRateLimitHeaders resp).limit) _ ?_
        rw [he]
        apply String.ext
        simp [String.data_append]
  · refine data_infix_of_parts
      ("Rate limit exceeded. Retry after " ++ effRetryAfter resp
        ++ " seconds. Remaining: ") _ "" _ ?_
    apply String.ext
    simp [String.data_append]

/-- Witness for C6 at a concrete input: a 429 with header `Retry-After: 30`
yields an error whose message contains `"30"`. -/
theorem c6_witness :
    resp429.status = 429 ∧
    (∃ msg, (requestModel "/feedback" none initialRateLimitInfo
        (.ok resp429)).result = Except.error msg ∧
      List.IsInfix (match headerGet resp429 "Retry-After" with
        | none => "60"
        | some s => s).data msg.data ∧
      List.IsInfix (rlFieldToString (parseRateLimitHeaders resp429).remaining
        ++ "/" ++ rlFieldToString (parseRateLimitHeaders resp429).limit).data
        msg.data) :=
  ⟨rfl, c6_rate_limited_error "/feedback" none initialRateLimitInfo resp429 rfl⟩

/-- Claim C7: every `request` call carries a timeout defaulting to 30000 ms
when the caller supplies none; when the timeout elapses first (the in-flight
request is aborted), the call fails with a timeout error whose message names
the configured duration in milliseconds and the target endpoint, and the
rate-limit snapshot is left unchanged. -/
theorem c7_timeout_error (endpoint : String) (tOpt : Option Nat)
    (prev : RateLimitInfo) :
    ∃ msg, (requestModel endpoint tOpt prev .aborted).result
        = Except.error msg ∧
      msg = "Request timeout after " ++ Nat.repr (tOpt.getD 30000)
        ++ "ms: " ++ endpoint ∧
      (tOpt = none →
        msg = "Request timeout after " ++ "30000" ++ "ms: " ++ endpoint) ∧
      (requestModel endpoint tOpt prev .aborted).rli = prev := by
  refine ⟨_, rfl, rfl, ?_, rfl⟩
  intro h
  subst h
  rfl

/-- Witness for C7 at a concrete input: no timeout supplied, so the default
30000 ms appears in the message together with the endpoint. -/
theorem c7_witness :
    ∃ msg, (requestModel "/customers" none initialRateLimitInfo
        .aborted).result = Except.error msg ∧
      msg = "Request timeout after " ++ Nat.repr ((none : Option Nat).getD 30000)
        ++ "ms: " ++ "/customers" ∧
      ((none : Option Nat) = none →
        msg = "Request timeout after " ++ "30000" ++ "ms: " ++ "/customers") ∧
      (requestModel "/customers" none initialRateLimitInfo .aborted).rli
        = initialRateLimitInfo :=
  c7_timeout_error "/customers" none initialRateLimitInfo

/-- Helper: `jsParseInt` never produces the JavaScript `null`. -/
theorem jsParseInt_ne_null (s : String) : jsParseInt s ≠ RLField.null := by
  unfold jsParseInt
  dsimp only
  split <;> simp

/-- Helper: a parsed rate-limit field is `null` exactly when its header is
absent or has the empty string as value. -/
theorem parseRLField_null_iff (h : Option String) :
    parseRLField h = RLField.null ↔ (h = none ∨ h = some "") := by
  cases h with
  | none => simp [parseRLField]
  | some s =>
    by_cases hs : s = ""
    · subst hs
      simp [parseRLField]
    · have hb : (s == "") = false := by
        simp [hs]
      simp [parseRLField, hb, jsParseInt_ne_null s, hs]

/-- Counterexample to C8 as stated: the `X-RateLimit-Remaining` header is
present (with the empty string as value), yet the stored field is `null`,
because the source guards the parse with string truthiness
(`headers.get(h) ? parseInt(...) : null`), not with presence. -/
theorem c8_counterexample :
    headerGet respEmptyRL "X-RateLimit-Remaining" = some "" ∧
    (requestModel "/nps/score" none initialRateLimitInfo
        (.ok respEmptyRL)).rli.remaining = RLField.null := by
  exact ⟨rfl, rfl⟩

/-- Claim C8 as amended: after every HTTP response, regardless of status, the
stored `RateLimitInfo` is overwritten — independently of its previous value —
with the values parsed from the three `X-RateLimit-*` headers of that
response, each field being `null` exactly when its header is absent or empty;
before the first completed request all three fields are `null`. -/
theorem c8_rate_limit_overwrite (endpoint : String) (tOpt : Option Nat)
    (prev : RateLimitInfo) (resp : HttpResponse) :
    (requestModel endpoint tOpt prev (.ok resp)).rli
      = parseRateLimitHeaders resp ∧
    ((parseRateLimitHeaders resp).remaining = RLField.null ↔
      (headerGet resp "X-RateLimit-Remaining" = none ∨
        headerGet resp "X-RateLimit-Remaining" = some "")) ∧
    ((parseRateLimitHeaders resp).limit = RLField.null ↔
      (headerGet resp "X-RateLimit-Limit" = none ∨
        headerGet resp "X-RateLimit-Limit" = some "")) ∧
    ((parseRateLimitHeaders resp).reset = RLField.null ↔
      (headerGet resp "X-RateLimit-Reset" = none ∨
        headerGet resp "X-RateLimit-Reset" = some "")) ∧
    initialRateLimitInfo.remaining = RLField.null ∧
    initialRateLimitInfo.limit = RLField.null ∧
    initialRateLimitInfo.reset = RLField.null := by
  refine ⟨?_, parseRLField_null_iff _, parseRLField_null_iff _,
    parseRLField_null_iff _, rfl, rfl, rfl⟩
  unfold requestModel
  dsimp only
  split
  · rfl
  · split
    · rfl
    · rfl

/-! ## Claim C2: cache key determinism -/

/-- Helper: the unary length block followed by the separator determines the
block length and the continuation. -/
theorem rep_hash_colon_inj : ∀ (n m : Nat) (xs ys : List Char),
    List.replicate n '#' ++ ':' :: xs = List.replicate m '#' ++ ':' :: ys →
    n = m ∧ xs = ys := by
  intro n
  induction n with
  | zero =>
    intro m xs ys h
    cases m with
    | zero => simpa using h
    | succ m =>
      exfalso
      simp only [List.replicate, List.nil_append, List.cons_append,
        List.cons.injEq] at h
      exact absurd h.1 (by decide)
  | succ n ih =>
    intro m xs ys h
    cases m with
    | zero =>
      exfalso
      simp only [List.replicate, List.nil_append, List.cons_append,
        List.cons.injEq] at h
      exact absurd h.1 (by decide)
    | succ m =>
      simp only [List.replicate, List.cons_append, List.cons.injEq] at h
      obtain ⟨h1, h2⟩ := ih m xs ys h.2
      exact ⟨by omega, h2⟩

/-- Helper: the field serialisation determines the field and the
continuation. -/
theorem encS_inj {a b r1 r2 : List Char} (h : encS a r1 = encS b r2) :
    a = b ∧ r1 = r2 := by
  unfold encS at h
  obtain ⟨hlen, h2⟩ := rep_hash_colon_inj _ _ _ _ h
  exact List.append_inj h2 hlen

/-- Helper: the pair-list serialisation is injective. -/
theorem encPairs_inj : ∀ l1 l2 : List (String × String),
    encPairs l1 = encPairs l2 → l1 = l2 := by
  intro l1
  induction l1 with
  | nil =>
    intro l2 h
    cases l2 with
    | nil => rfl
    | cons kv r =>
      exfalso
      have hl := congrArg List.length h
      simp [encPairs, encS] at hl
      omega
  | cons kv r ih =>
    intro l2 h
    cases l2 with
    | nil =>
      exfalso
      have hl := congrArg List.length h
      simp [encPairs, encS] at hl
    | cons kv2 r2 =>
      simp only [encPairs] at h
      obtain ⟨h1, h2⟩ := encS_inj h
      obtain ⟨h3, h4⟩ := encS_inj h2
      have e1 : kv.1 = kv2.1 := String.ext h1
      have e2 : kv.2 = kv2.2 := String.ext h3
      have er : r = r2 := ih r2 h4
      rw [Prod.ext e1 e2, er]

/-- Helper: the canonical ordering is sorted. -/
theorem sortPairs_sorted (l : List (String × String)) :
    List.Sorted pairLE (sortPairs l) :=
  List.sorted_insertionSort pairLE l

/-- Helper: the canonical ordering is a permutation of its input. -/
theorem sortPairs_perm (l : List (String × String)) :
    List.Perm (sortPairs l) l :=
  List.perm_insertionSort pairLE l

/-- Helper: permuted pair lists have the same canonical ordering. -/
theorem sortPairs_eq_of_perm {l1 l2 : List (String × String)}
    (h : List.Perm l1 l2) : sortPairs l1 = sortPairs l2 :=
  List.eq_of_perm_of_sorted
    ((sortPairs_perm l1).trans (h.trans (sortPairs_perm l2).symm))
    (sortPairs_sorted l1) (sortPairs_sorted l2)

/-- Helper: cancellation of the common operation-name part of two keys. -/
theorem key_body_inj {op : String} {A B : List Char}
    (h : op ++ ":" ++ String.mk A = op ++ ":" ++ String.mk B) : A = B := by
  have hd := congrArg String.data h
  simpa [String.data_append] using hd

/-- Claim C2: cache key derivation is order-independent and
undefined-omitting — for a fixed operation name, two parameter mappings
produce the identical key exactly when they contain the same defined
name/value pairs (up to order); in particular mappings differing only in
property insertion order or in undefined entries collide, and mappings
differing in at least one defined pair produce different keys. -/
theorem c2_createCacheKey_canonical (op : String)
    (p q : List (String × Option String)) :
    createCacheKey op p = createCacheKey op q ↔
      List.Perm (definedPairs p) (definedPairs q) := by
  constructor
  · intro h
    unfold createCacheKey at h
    have h2 : sortPairs (definedPairs p) = sortPairs (definedPairs q) :=
      encPairs_inj _ _ (key_body_inj h)
    have hp := sortPairs_perm (definedPairs p)
    rw [h2] at hp
    exact hp.symm.trans (sortPairs_perm _)
  · intro h
    unfold createCacheKey
    rw [sortPairs_eq_of_perm h]

/-! ## Helper lemmas about chunking and the cache store -/

/-- Helper: the chunk worker does not depend on the fuel, as long as the fuel
bounds the list length and the chunk size is positive. -/
theorem chunkListF_congr (n : Nat) (hn : 0 < n) :
    ∀ (f1 f2 : Nat) (l : List α), l.length ≤ f1 → l.length ≤ f2 →
      chunkListF n f1 l = chunkListF n f2 l := by
  intro f1
  induction f1 with
  | zero =>
    intro f2 l h1 _
    have : l = [] := List.eq_nil_of_length_eq_zero (by omega)
    subst this
    cases f2 <;> rfl
  | succ f1 ih =>
    intro f2 l h1 h2
    cases l with
    | nil => cases f2 <;> rfl
    | cons x xs =>
      cases f2 with
      | zero => simp at h2
      | succ f2 =>
        simp only [chunkListF]
        congr 1
        apply ih
        · simp only [List.length_drop, List.length_cons]
          simp only [List.length_cons] at h1
          omega
        · simp only [List.length_drop, List.length_cons]
          simp only [List.length_cons] at h2
          omega

/-- Helper: `chunkList` on a non-empty list is the first chunk followed by the
chunking of the rest. -/
theorem chunkList_cons (n : Nat) (hn : 0 < n) (x : α) (xs : List α) :
    chunkList n (x :: xs)
      = ((x :: xs).take n) :: chunkList n ((x :: xs).drop n) := by
  unfold chunkList
  simp only [List.length_cons, chunkListF]
  congr 1
  apply chunkListF_congr n hn
  · simp only [List.length_drop, List.length_cons]
    omega
  · exact le_rfl

/-- Helper: the chunks of a list concatenate back to the list. -/
theorem chunkList_flatten (n : Nat) (hn : 0 < n) (l : List α) :
    (chunkList n l).flatten = l := by
  have H : ∀ (m : Nat) (l : List α), l.length ≤ m →
      (chunkList n l).flatten = l := by
    intro m
    induction m with
    | zero =>
      intro l hl
      have : l = [] := List.eq_nil_of_length_eq_zero (by omega)
      subst this
      rfl
    | succ m ih =>
      intro l hl
      cases l with
      | nil => rfl
      | cons x xs =>
        rw [chunkList_cons n hn]
        simp only [List.flatten_cons]
        rw [ih]
        · exact List.take_append_drop n (x :: xs)
        · simp only [List.length_drop, List.length_cons]
          simp only [List.length_cons] at hl
          omega
  exact H l.length l le_rfl

/-- Helper: looking a key up after a pattern invalidation gives `none` for
matching keys and the previous entry otherwise. -/
theorem lookup_filter_pattern {β : Type} (p : String → Bool) (k : String) :
    ∀ l : List (String × β),
      List.lookup k (l.filter (fun kv => !(p kv.1)))
        = if p k = true then none else List.lookup k l := by
  intro l
  induction l with
  | nil => by_cases hp : p k = true <;> simp [List.lookup, hp]
  | cons kv rest ih =>
    rw [List.filter_cons]
    cases hp : p kv.1 with
    | true =>
      simp only [hp, Bool.not_true, Bool.false_eq_true, if_false]
      rw [ih]
      by_cases hbe : k = kv.1
      · subst hbe
        simp [hp]
      · simp [List.lookup, beq_eq_false_iff_ne.mpr hbe]
    | false =>
      simp only [hp, Bool.not_false, if_true]
      cases hbe : (k == kv.1) with
      | true =>
        have hk : k = kv.1 := eq_of_beq hbe
        subst hk
        simp [List.lookup, hp]
      | false =>
        simp [List.lookup, hbe, ih]

/-- Helper: a list splits into the entries a predicate drops and those it
counts. -/
theorem length_filter_not_add_countP {β : Type} (q : β → Bool) (l : List β) :
    l.length = (l.filter (fun x => !(q x))).length + l.countP q := by
  induction l with
  | nil => rfl
  | cons x xs ih =>
    cases h : q x <;>
      simp [List.filter_cons, List.countP_cons, h, ih] <;> omega

/-! ## Claim C5: pattern invalidation after the customer write operations -/

/-- Claim C5: after the `invalidatePattern(/^customer/)` performed by
`createCustomers` and by a successful `deleteCustomer`, every previously
stored cache entry whose key starts with `customer` is absent, every entry
whose key does not match is stored unchanged, and the count returned by
`invalidatePattern` equals the number of entries removed. -/
theorem c5_invalidate_customer_keys (α : Type) (st : CacheState α)
    (customers : List CustomerIn) (net : Nat → Option String)
    (email : String) :
    (∀ k, matchesCustomerKey k = true →
      List.lookup k (createCustomers customers net st).state.entries = none ∧
      List.lookup k (deleteCustomer email none st).2.entries = none) ∧
    (∀ k, matchesCustomerKey k = false →
      List.lookup k (createCustomers customers net st).state.entries
        = List.lookup k st.entries ∧
      List.lookup k (deleteCustomer email none st).2.entries
        = List.lookup k st.entries) ∧
    (invalidatePattern matchesCustomerKey st).1
      = st.entries.countP (fun kv => matchesCustomerKey kv.1) ∧
    st.entries.length
      = (invalidatePattern matchesCustomerKey st).2.entries.length
        + (invalidatePattern matchesCustomerKey st).1 := by
  refine ⟨?_, ?_, rfl, ?_⟩
  · intro k hk
    constructor
    · show List.lookup k
        (st.entries.filter (fun kv => !(matchesCustomerKey kv.1))) = none
      rw [lookup_filter_pattern]
      simp [hk]
    · show List.lookup k
        (st.entries.filter (fun kv => !(matchesCustomerKey kv.1))) = none
      rw [lookup_filter_pattern]
      simp [hk]
  · intro k hk
    constructor
    · show List.lookup k
          (st.entries.filter (fun kv => !(matchesCustomerKey kv.1)))
        = List.lookup k st.entries
      rw [lookup_filter_pattern]
      simp [hk]
    · show List.lookup k
          (st.entries.filter (fun kv => !(matchesCustomerKey kv.1)))
        = List.lookup k st.entries
      rw [lookup_filter_pattern]
      simp [hk]
  · exact length_filter_not_add_countP _ _

/-- Witness for C5 at a concrete input: both `customer`-prefixed entries are
gone after the write, the unrelated entry is untouched, and the returned count
is 2. -/
theorem c5_witness :
    matchesCustomerKey "customers:a" = true ∧
    matchesCustomerKey "nps_score" = false ∧
    List.lookup "customers:a"
      (createCustomers [] (fun _ => none) stCustomerMix).state.entries
      = none ∧
    List.lookup "nps_score"
        (createCustomers [] (fun _ => none) stCustomerMix).state.entries
      = List.lookup "nps_score" stCustomerMix.entries ∧
    (invalidatePattern matchesCustomerKey stCustomerMix).1
      = stCustomerMix.entries.countP (fun kv => matchesCustomerKey kv.1) ∧
    (invalidatePattern matchesCustomerKey stCustomerMix).1 = 2 :=
  ⟨by decide, by decide,
    ((c5_invalidate_customer_keys Nat stCustomerMix [] (fun _ => none) "x").1
      "customers:a" (by decide)).1,
    ((c5_invalidate_customer_keys Nat stCustomerMix [] (fun _ => none) "x").2.1
      "nps_score" (by decide)).1,
    (c5_invalidate_customer_keys Nat stCustomerMix [] (fun _ => none) "x").2.2.1,
    by decide⟩

/-! ## Claim C10: invalidation happens even when every chunk fails -/

/-- Helper: when every chunk request fails, the bulk loop counts no success
and every flattened entry as an error. -/
theorem bulkGo_all_fail (net : Nat → Option String)
    (hf : ∀ i, net i ≠ none) :
    ∀ (chunks : List (List CustomerIn)) (i0 : Nat),
      (bulkGo net i0 chunks).2.1 = 0 ∧
      (bulkGo net i0 chunks).2.2 = chunks.flatten.length := by
  intro chunks
  induction chunks with
  | nil => intro i0; simp [bulkGo]
  | cons c rest ih =>
    intro i0
    cases hn : net i0 with
    | none => exact absurd hn (hf i0)
    | some e =>
      have h1 := (ih (i0 + 1)).1
      have h2 := (ih (i0 + 1)).2
      simp [bulkGo, hn, h1, h2]

/-- Claim C10: `createCustomers` performs the `/^customer/` cache invalidation
on every call that returns, unconditionally on the outcome of the chunk
requests — even when every chunk network call failed (success count 0, error
count equal to the deduplicated input size), every cache entry with a
`customer`-prefixed key is removed. -/
theorem c10_invalidate_unconditional (α : Type)
    (customers : List CustomerIn) (net : Nat → Option String)
    (st : CacheState α) :
    (∀ k, matchesCustomerKey k = true →
      List.lookup k (createCustomers customers net st).state.entries = none) ∧
    ((∀ i, net i ≠ none) →
      (createCustomers customers net st).res.success_count = 0 ∧
      (createCustomers customers net st).res.error_count
        = (dedupeByEmail customers []).length) := by
  constructor
  · intro k hk
    show List.lookup k
      (st.entries.filter (fun kv => !(matchesCustomerKey kv.1))) = none
    rw [lookup_filter_pattern]
    simp [hk]
  · intro hf
    have h := bulkGo_all_fail net hf
      (chunkList 1000 (dedupeByEmail customers [])) 0
    refine ⟨h.1, ?_⟩
    show (bulkGo net 0 (chunkList 1000 (dedupeByEmail customers []))).2.2
      = (dedupeByEmail customers []).length
    rw [h.2, chunkList_flatten 1000 (by omega)]

/-- Witness for C10 at a concrete input: with the single chunk failing, no
success is reported, the one deduplicated entry is an error, and the
`customer`-prefixed cache entry is nevertheless removed. -/
theorem c10_witness :
    matchesCustomerKey "customers:a" = true ∧
    List.lookup "customers:a"
      (createCustomers [⟨some "a@x.com", "p"⟩] (fun _ => some "boom")
        stOneCustomer).state.entries = none ∧
    (createCustomers [⟨some "a@x.com", "p"⟩] (fun _ => some "boom")
      stOneCustomer).res.success_count = 0 ∧
    (createCustomers [⟨some "a@x.com", "p"⟩] (fun _ => some "boom")
        stOneCustomer).res.error_count
      = (dedupeByEmail [⟨some "a@x.com", "p"⟩] []).length :=
  ⟨by decide,
    (c10_invalidate_unconditional Nat [⟨some "a@x.com", "p"⟩]
      (fun _ => some "boom") stOneCustomer).1 "customers:a" (by decide),
    ((c10_invalidate_unconditional Nat [⟨some "a@x.com", "p"⟩]
      (fun _ => some "boom") stOneCustomer).2 (fun i => by simp)).1,
    ((c10_invalidate_unconditional Nat [⟨some "a@x.com", "p"⟩]
      (fun _ => some "boom") stOneCustomer).2 (fun i => by simp)).2⟩

/-! ## Helper lemmas about the dedup filter -/

/-- Helper: every entry kept by the dedup filter has a truthy email. -/
theorem dedupe_mem_truthy : ∀ (cs : List CustomerIn) (seen : List String),
    ∀ c ∈ dedupeByEmail cs seen, jsTruthyStr c.email = true := by
  intro cs
  induction cs with
  | nil =>
    intro seen c hc
    simp [dedupeByEmail] at hc
  | cons x rest ih =>
    intro seen c hc
    by_cases ht : jsTruthyStr x.email = true
    · by_cases hs : lowerEmail x ∈ seen
      · rw [show dedupeByEmail (x :: rest) seen = dedupeByEmail rest seen from
          by simp [dedupeByEmail, ht, hs]] at hc
        exact ih seen c hc
      · rw [show dedupeByEmail (x :: rest) seen
            = x :: dedupeByEmail rest (lowerEmail x :: seen) from
          by simp [dedupeByEmail, ht, hs]] at hc
        rcases List.mem_cons.mp hc with h | h
        · rw [h]; exact ht
        · exact ih _ c h
    · rw [show dedupeByEmail (x :: rest) seen = dedupeByEmail rest seen from
        by simp [dedupeByEmail, ht]] at hc
      exact ih seen c hc

/-- Helper: the dedup filter keeps a subsequence of its input, preserving
order. -/
theorem dedupe_sublist : ∀ (cs : List CustomerIn) (seen : List String),
    (dedupeByEmail cs seen).Sublist cs := by
  intro cs
  induction cs with
  | nil => intro seen; simp [dedupeByEmail]
  | cons x rest ih =>
    intro seen
    by_cases ht : jsTruthyStr x.email = true
    · by_cases hs : lowerEmail x ∈ seen
      · rw [show dedupeByEmail (x :: rest) seen = dedupeByEmail rest seen from
          by simp [dedupeByEmail, ht, hs]]
        exact (ih seen).cons x
      · rw [show dedupeByEmail (x :: rest) seen
            = x :: dedupeByEmail rest (lowerEmail x :: seen) from
          by simp [dedupeByEmail, ht, hs]]
        exact (ih _).cons₂ x
    · rw [show dedupeByEmail (x :: rest) seen = dedupeByEmail rest seen from
        by simp [dedupeByEmail, ht]]
      exact (ih seen).cons x

/-- Helper: when every input entry has a falsy email, the dedup filter drops
everything. -/
theorem dedupe_nil_of_all_falsy : ∀ (cs : List CustomerIn),
    (∀ c ∈ cs, jsTruthyStr c.email = false) →
    ∀ seen, dedupeByEmail cs seen = [] := by
  intro cs
  induction cs with
  | nil => intro _ seen; rfl
  | cons x rest ih =>
    intro hall seen
    have hx : jsTruthyStr x.email = false := hall x (by simp)
    rw [show dedupeByEmail (x :: rest) seen = dedupeByEmail rest seen from
      by simp [dedupeByEmail, hx]]
    exact ih (fun c hc => hall c (by simp [hc])) seen

/-! ## Claim C9: entries without an email are silently dropped -/

/-- Claim C9: `createCustomers` drops every input entry whose email is absent
or empty before chunking — every deduplicated entry and every entry of every
submitted network call has a truthy email — and an input consisting only of
email-less entries issues zero network calls and returns zero success count,
zero error count and an empty results array. -/
theorem c9_email_less_dropped (α : Type) (customers : List CustomerIn)
    (net : Nat → Option String) (st : CacheState α) :
    (∀ c ∈ dedupeByEmail customers [], jsTruthyStr c.email = true) ∧
    (∀ chunk ∈ (createCustomers customers net st).calls, ∀ c ∈ chunk,
      jsTruthyStr c.email = true) ∧
    ((∀ c ∈ customers, jsTruthyStr c.email = false) →
      (createCustomers customers net st).calls = [] ∧
      (createCustomers customers net st).res.success_count = 0 ∧
      (createCustomers customers net st).res.error_count = 0 ∧
      (createCustomers customers net st).res.results = []) := by
  refine ⟨dedupe_mem_truthy customers [], ?_, ?_⟩
  · intro chunk hchunk c hc
    have hflat : c ∈ (chunkList 1000 (dedupeByEmail customers [])).flatten :=
      List.mem_flatten.mpr ⟨chunk, hchunk, hc⟩
    rw [chunkList_flatten 1000 (by omega)] at hflat
    exact dedupe_mem_truthy customers [] c hflat
  · intro hall
    have hd : dedupeByEmail customers [] = [] :=
      dedupe_nil_of_all_falsy customers hall []
    refine ⟨?_, ?_, ?_, ?_⟩
    · show chunkList 1000 (dedupeByEmail customers []) = []
      rw [hd]; rfl
    · show (bulkGo net 0 (chunkList 1000 (dedupeByEmail customers []))).2.1 = 0
      rw [hd]; rfl
    · show (bulkGo net 0 (chunkList 1000 (dedupeByEmail customers []))).2.2 = 0
      rw [hd]; rfl
    · show (bulkGo net 0 (chunkList 1000 (dedupeByEmail customers []))).1 = []
      rw [hd]; rfl

/-- Witness for C9 at a concrete input: one entry with no email and one with
an empty email yield zero network calls and an empty result. -/
theorem c9_witness :
    (∀ c ∈ ([⟨none, "a"⟩, ⟨some "", "b"⟩] : List CustomerIn),
      jsTruthyStr c.email = false) ∧
    ((createCustomers [⟨none, "a"⟩, ⟨some "", "b"⟩] (fun _ => none)
        (⟨[], 0, 0, true⟩ : CacheState Nat)).calls = [] ∧
      (createCustomers [⟨none, "a"⟩, ⟨some "", "b"⟩] (fun _ => none)
        (⟨[], 0, 0, true⟩ : CacheState Nat)).res.success_count = 0 ∧
      (createCustomers [⟨none, "a"⟩, ⟨some "", "b"⟩] (fun _ => none)
        (⟨[], 0, 0, true⟩ : CacheState Nat)).res.error_count = 0 ∧
      (createCustomers [⟨none, "a"⟩, ⟨some "", "b"⟩] (fun _ => none)
        (⟨[], 0, 0, true⟩ : CacheState Nat)).res.results = []) :=
  ⟨by decide,
    (c9_email_less_dropped Nat [⟨none, "a"⟩, ⟨some "", "b"⟩] (fun _ => none)
      ⟨[], 0, 0, true⟩).2.2 (by decide)⟩

/-! ## Helper lemmas for the bulk-create contract -/

/-- Helper: unfolding equation of the chunk-length worker on successors. -/
theorem lensOfChunksF_succ (f m : Nat) :
    lensOfChunksF (f + 1) (m + 1)
      = min 1000 (m + 1) :: lensOfChunksF f (m + 1 - 1000) := rfl

/-- Helper: the chunk-length worker does not depend on the fuel, as long as the
fuel bounds the number. -/
theorem lensOfChunksF_congr : ∀ (f1 f2 n : Nat), n ≤ f1 → n ≤ f2 →
    lensOfChunksF f1 n = lensOfChunksF f2 n := by
  intro f1
  induction f1 with
  | zero =>
    intro f2 n h1 _
    have : n = 0 := by omega
    subst this
    cases f2 <;> rfl
  | succ f1 ih =>
    intro f2 n h1 h2
    cases n with
    | zero => cases f2 <;> rfl
    | succ m =>
      cases f2 with
      | zero => omega
      | succ f2 =>
        simp only [lensOfChunksF]
        congr 1
        exact ih f2 (m + 1 - 1000) (by omega) (by omega)

/-- Helper: the lengths of the 1000-element chunks of a list are determined by
its length alone. -/
theorem chunkList_map_length (l : List α) :
    (chunkList 1000 l).map List.length = lensOfChunks l.length := by
  have H : ∀ (m : Nat) (l : List α), l.length ≤ m →
      (chunkList 1000 l).map List.length = lensOfChunks l.length := by
    intro m
    induction m with
    | zero =>
      intro l hl
      have : l = [] := List.eq_nil_of_length_eq_zero (by omega)
      subst this
      rfl
    | succ m ih =>
      intro l hl
      cases l with
      | nil => rfl
      | cons x xs =>
        rw [chunkList_cons 1000 (by omega)]
        simp only [List.map_cons]
        rw [ih ((x :: xs).drop 1000) (by
          simp only [List.length_drop, List.length_cons]
          simp only [List.length_cons] at hl
          omega)]
        show ((x :: xs).take 1000).length
            :: lensOfChunks ((x :: xs).drop 1000).length
          = lensOfChunksF (x :: xs).length (x :: xs).length
        rw [List.length_cons, lensOfChunksF_succ]
        congr 1
        · rw [List.length_take, List.length_cons]
        · show lensOfChunksF ((x :: xs).drop 1000).length
              ((x :: xs).drop 1000).length
            = lensOfChunksF xs.length (xs.length + 1 - 1000)
          have hd : ((x :: xs).drop 1000).length = xs.length + 1 - 1000 := by
            simp only [List.length_drop, List.length_cons]
          rw [hd]
          exact lensOfChunksF_congr (xs.length + 1 - 1000) xs.length
            (xs.length + 1 - 1000) le_rfl (by omega)
  exact H l.length l le_rfl

/-- Helper: the bulk loop produces one result row per flattened entry. -/
theorem bulkGo_length (net : Nat → Option String) :
    ∀ (chunks : List (List CustomerIn)) (i0 : Nat),
      (bulkGo net i0 chunks).1.length = chunks.flatten.length := by
  intro chunks
  induction chunks with
  | nil => intro _; rfl
  | cons c rest ih =>
    intro i0
    cases hn : net i0 <;>
      simp [bulkGo, hn, ih (i0 + 1)]

/-- Helper: counting a predicate and its negation covers a list. -/
theorem countP_add_countP_not {β : Type} (q : β → Bool) (l : List β) :
    l.countP q + l.countP (fun x => !(q x)) = l.length := by
  induction l with
  | nil => rfl
  | cons x xs ih =>
    cases h : q x <;> simp [List.countP_cons, h] <;> omega

/-- Helper: the success and error counters of the bulk loop count exactly the
successful and failed result rows. -/
theorem bulkGo_counts (net : Nat → Option String) :
    ∀ (chunks : List (List CustomerIn)) (i0 : Nat),
      (bulkGo net i0 chunks).2.1
        = (bulkGo net i0 chunks).1.countP (fun r => r.success) ∧
      (bulkGo net i0 chunks).2.2
        = (bulkGo net i0 chunks).1.countP (fun r => !r.success) := by
  intro chunks
  induction chunks with
  | nil => intro _; exact ⟨rfl, rfl⟩
  | cons c rest ih =>
    intro i0
    cases hn : net i0 with
    | none =>
      have h1 : ((fun r : RowResult => r.success) ∘ rowFor none)
          = (fun _ : CustomerIn => true) := by
        funext y
        simp [rowFor]
      have h2 : ((fun r : RowResult => !r.success) ∘ rowFor none)
          = (fun _ : CustomerIn => false) := by
        funext y
        simp [rowFor]
      refine ⟨?_, ?_⟩ <;>
        simp [bulkGo, hn, List.countP_append, List.countP_map, h1, h2,
          List.countP_true, List.countP_false,
          (ih (i0 + 1)).1, (ih (i0 + 1)).2]
    | some e =>
      have h1 : ((fun r : RowResult => r.success) ∘ rowFor (some e))
          = (fun _ : CustomerIn => false) := by
        funext y
        simp [rowFor]
      have h2 : ((fun r : RowResult => !r.success) ∘ rowFor (some e))
          = (fun _ : CustomerIn => true) := by
        funext y
        simp [rowFor]
      refine ⟨?_, ?_⟩ <;>
        simp [bulkGo, hn, List.countP_append, List.countP_map, h1, h2,
          List.countP_true, List.countP_false,
          (ih (i0 + 1)).1, (ih (i0 + 1)).2]

/-- Helper: closed form of the result rows — the row at position `j` reports
the entry at position `j` of the deduplicated list, with the outcome of its
chunk, which is chunk number `j / 1000`. -/
theorem bulkGo_results_getElem (net : Nat → Option String)
    (l : List CustomerIn) (i0 j : Nat) :
    (bulkGo net i0 (chunkList 1000 l)).1[j]?
      = l[j]?.map (rowFor (net (i0 + j / 1000))) := by
  have H : ∀ (m : Nat) (l : List CustomerIn) (i0 j : Nat), l.length ≤ m →
      (bulkGo net i0 (chunkList 1000 l)).1[j]?
        = l[j]?.map (rowFor (net (i0 + j / 1000))) := by
    intro m
    induction m with
    | zero =>
      intro l i0 j hl
      have : l = [] := List.eq_nil_of_length_eq_zero (by omega)
      subst this
      rfl
    | succ m ih =>
      intro l i0 j hl
      cases l with
      | nil => rfl
      | cons x xs =>
        rw [chunkList_cons 1000 (by omega)]
        have hres : (bulkGo net i0
              (((x :: xs).take 1000) :: chunkList 1000 ((x :: xs).drop 1000))).1
            = ((x :: xs).take 1000).map (rowFor (net i0))
              ++ (bulkGo net (i0 + 1)
                  (chunkList 1000 ((x :: xs).drop 1000))).1 := by
          cases hn : net i0 <;> simp [bulkGo, hn]
        rw [hres]
        by_cases hj : j < ((x :: xs).take 1000).length
        · rw [List.getElem?_append_left (by rw [List.length_map]; exact hj)]
          rw [List.getElem?_map]
          have hj1000 : j < 1000 := by
            simp only [List.length_take] at hj
            omega
          rw [List.getElem?_take, if_pos hj1000]
          rw [Nat.div_eq_of_lt hj1000, Nat.add_zero]
        · by_cases hlen : (x :: xs).length ≤ 1000
          · have htake : (x :: xs).take 1000 = x :: xs :=
              List.take_of_length_le hlen
            have hdrop : (x :: xs).drop 1000 = [] :=
              List.drop_eq_nil_of_le hlen
            rw [List.getElem?_append_right (by rw [List.length_map]; omega)]
            rw [hdrop]
            have hrhs : (x :: xs)[j]? = none := List.getElem?_eq_none (by
              rw [htake] at hj
              omega)
            rw [hrhs]
            rfl
          · have htl : ((x :: xs).take 1000).length = 1000 := by
              simp only [List.length_take]
              omega
            rw [List.getElem?_append_right (by rw [List.length_map]; omega)]
            rw [List.length_map, htl]
            rw [ih ((x :: xs).drop 1000) (i0 + 1) (j - 1000) (by
              simp only [List.length_drop, List.length_cons]
              simp only [List.length_cons] at hl
              omega)]
            rw [List.getElem?_drop]
            have hj1000 : 1000 ≤ j := by
              rw [htl] at hj
              omega
            have hidx : 1000 + (j - 1000) = j := by omega
            rw [hidx]
            have harith : i0 + 1 + (j - 1000) / 1000 = i0 + j / 1000 := by
              have h1 : (j - 1000 + 1000) / 1000 = (j - 1000) / 1000 + 1 :=
                Nat.add_div_right _ (by omega)
              have h2 : j - 1000 + 1000 = j := by omega
              rw [h2] at h1
              omega
            rw [harith]
  exact H l.length l i0 j le_rfl

/-- Helper: the entries kept by the dedup filter with a given lower-cased
email are exactly the first truthy-email entry of the input with that
lower-cased email (none when the email was already seen). -/
theorem dedupe_filter_eq (e : String) :
    ∀ (cs : List CustomerIn) (seen : List String),
      (dedupeByEmail cs seen).filter (fun c => lowerEmail c == e)
        = if e ∈ seen then []
          else (cs.filter
            (fun c => jsTruthyStr c.email && (lowerEmail c == e))).take 1 := by
  intro cs
  induction cs with
  | nil =>
    intro seen
    by_cases h : e ∈ seen <;> simp [dedupeByEmail, h]
  | cons x rest ih =>
    intro seen
    by_cases ht : jsTruthyStr x.email = true
    · by_cases hs : lowerEmail x ∈ seen
      · rw [show dedupeByEmail (x :: rest) seen = dedupeByEmail rest seen from
          by simp [dedupeByEmail, ht, hs]]
        rw [ih seen]
        by_cases he : lowerEmail x = e
        · subst he
          simp [hs]
        · have hbe : (lowerEmail x == e) = false := beq_eq_false_iff_ne.mpr he
          rw [List.filter_cons]
          simp [hbe]
      · rw [show dedupeByEmail (x :: rest) seen
            = x :: dedupeByEmail rest (lowerEmail x :: seen) from
          by simp [dedupeByEmail, ht, hs]]
        by_cases he : lowerEmail x = e
        · subst he
          rw [List.filter_cons]
          simp only [beq_self_eq_true, if_true]
          rw [ih (lowerEmail x :: seen)]
          simp [hs, List.filter_cons, ht]
        · have hbe : (lowerEmail x == e) = false := beq_eq_false_iff_ne.mpr he
          rw [List.filter_cons]
          simp only [hbe, Bool.false_eq_true, if_false]
          rw [ih (lowerEmail x :: seen)]
          have hmem : (e ∈ lowerEmail x :: seen) ↔ e ∈ seen := by
            constructor
            · intro h
              rcases List.mem_cons.mp h with h | h
              · exact absurd h.symm he
              · exact h
            · intro h
              exact List.mem_cons.mpr (Or.inr h)
          rw [if_congr hmem rfl rfl]
          simp [List.filter_cons, hbe, ht]
    · rw [show dedupeByEmail (x :: rest) seen = dedupeByEmail rest seen from
        by simp [dedupeByEmail, ht]]
      rw [ih seen]
      have hf : jsTruthyStr x.email = false := by
        revert ht
        cases jsTruthyStr x.email <;> simp
      simp [List.filter_cons, hf]

/-! ## Claim C4: the bulk-create contract -/

/-- Claim C4: for every input list, `createCustomers` de-duplicates entries by
lower-cased email keeping the first occurrence (the kept entries form a
subsequence of the input, and for each lower-cased email they are exactly the
first matching truthy-email entry), splits the result into chunks of 1000
entries each submitted as one network call (so 1500 deduplicated entries yield
exactly two calls of lengths 1000 and 500), and reports one result row per
deduplicated entry: row `j` describes entry `j`, succeeding exactly when its
chunk (number `j / 1000`) succeeded and carrying that chunk's error message
otherwise, so a failing chunk marks exactly its own entries as failed while
other chunks are unaffected; the call itself returns normally with the success
and error counters counting the result rows. -/
theorem c4_createCustomers_contract (α : Type) (customers : List CustomerIn)
    (net : Nat → Option String) (st : CacheState α) :
    ((dedupeByEmail customers []).Sublist customers) ∧
    (∀ e : String,
      (dedupeByEmail customers []).filter (fun c => lowerEmail c == e)
        = (customers.filter
            (fun c => jsTruthyStr c.email && (lowerEmail c == e))).take 1) ∧
    (createCustomers customers net st).calls
      = chunkList 1000 (dedupeByEmail customers []) ∧
    (createCustomers customers net st).calls.flatten
      = dedupeByEmail customers [] ∧
    (createCustomers customers net st).calls.map List.length
      = lensOfChunks (dedupeByEmail customers []).length ∧
    lensOfChunks 1500 = [1000, 500] ∧
    (createCustomers customers net st).res.results.length
      = (dedupeByEmail customers []).length ∧
    (∀ j : Nat, (createCustomers customers net st).res.results[j]?
      = (dedupeByEmail customers [])[j]?.map (rowFor (net (j / 1000)))) ∧
    (createCustomers customers net st).res.success_count
      = (createCustomers customers net st).res.results.countP
          (fun r => r.success) ∧
    (createCustomers customers net st).res.error_count
      = (createCustomers customers net st).res.results.countP
          (fun r => !r.success) ∧
    (createCustomers customers net st).res.success_count
        + (createCustomers customers net st).res.error_count
      = (dedupeByEmail customers []).length := by
  refine ⟨dedupe_sublist customers [], ?_, rfl, ?_, ?_, ?_, ?_, ?_, ?_, ?_, ?_⟩
  · intro e
    rw [dedupe_filter_eq e customers []]
    simp
  · show (chunkList 1000 (dedupeByEmail customers [])).flatten
      = dedupeByEmail customers []
    exact chunkList_flatten 1000 (by omega) _
  · exact chunkList_map_length _
  · rfl
  · show (bulkGo net 0 (chunkList 1000 (dedupeByEmail customers []))).1.length
      = (dedupeByEmail customers []).length
    rw [bulkGo_length net _ 0, chunkList_flatten 1000 (by omega)]
  · intro j
    show (bulkGo net 0 (chunkList 1000 (dedupeByEmail customers []))).1[j]?
      = (dedupeByEmail customers [])[j]?.map (rowFor (net (j / 1000)))
    rw [bulkGo_results_getElem net _ 0 j, Nat.zero_add]
  · exact (bulkGo_counts net _ 0).1
  · exact (bulkGo_counts net _ 0).2
  · show (bulkGo net 0 (chunkList 1000 (dedupeByEmail customers []))).2.1
        + (bulkGo net 0 (chunkList 1000 (dedupeByEmail customers []))).2.2
      = (dedupeByEmail customers []).length
    rw [(bulkGo_counts net _ 0).1, (bulkGo_counts net _ 0).2,
      countP_add_countP_not, bulkGo_length net _ 0,
      chunkList_flatten 1000 (by omega)]

end Retently
